import Mathlib

/-!
Verification development for the sprite rendering and caching engine
(`KGameRenderer` / `KGameRendererPrivate` / `KGRInternal` in `kgamerenderer.cpp`).

Strings (`QString`/`QByteArray`) are modelled as `List Char`.  Qt's decimal
rendering of integers (`QString::arg(int)` / `QString::arg(uint)`) is modelled
by `decRepr`/`intRepr`, substring search (`QString::contains`) by `occ`, and
place-marker substitution (`QString::arg` applied to the fixed format strings
of this file, whose lowest marker is `%1` resp. `%2` at each application site)
by `qargInt1`/`qargInt2`/`qargNat1`/`qargNat2`.
-/

namespace KGR

/-- Strings of the engine (`QString` contents as a list of characters). -/
abbrev Str := List Char

/-- The character list of a Lean string literal. -/
def lit (s : String) : Str := s.data

/-- `leadsWith pat l` is true iff `pat` occurs at the very start of `l`. -/
def leadsWith : Str → Str → Bool
  | [], _ => true
  | _ :: _, [] => false
  | p :: ps, c :: cs => p = c && leadsWith ps cs

/-- Number of positions of `l` at which `pat` occurs as a substring
(`QString::contains(pat)` is `0 < occ pat l` for nonempty `pat`). -/
def occ (pat : Str) : Str → Nat
  | [] => 0
  | c :: t => (if leadsWith pat (c :: t) then 1 else 0) + occ pat t

/-- Recursion structure of `replaceAll`, made structural through a fuel
parameter (any fuel of at least the list's length gives the same result). -/
def replaceAllAux (pat repl : Str) : Nat → Str → Str
  | _, [] => []
  | 0, l => l
  | fuel + 1, c :: rest =>
    if leadsWith pat (c :: rest) then
      repl ++ replaceAllAux pat repl fuel (List.drop (pat.length - 1) rest)
    else
      c :: replaceAllAux pat repl fuel rest

/-- Replace every occurrence of the (nonempty) pattern `pat` by `repl`,
scanning left to right without rescanning the replacement text, as in
`QString::arg`. -/
def replaceAll (pat repl l : Str) : Str := replaceAllAux pat repl l.length l

/-- Recursion structure of `decRepr`, made structural through a fuel
parameter (any fuel exceeding `n` gives the same result). -/
def decReprAux : Nat → Nat → Str
  | 0, _ => []
  | fuel + 1, n =>
    if n < 10 then [Nat.digitChar n] else decReprAux fuel (n / 10) ++ [Nat.digitChar (n % 10)]

/-- Decimal digits of a natural number, most significant first
(Qt's rendering of a non-negative integer). -/
def decRepr (n : Nat) : Str := decReprAux (n + 1) n

/-- Decimal rendering of an integer (`QString::arg(int)`). -/
def intRepr (v : Int) : Str :=
  if v < 0 then '-' :: decRepr v.natAbs else decRepr v.toNat

/-- Numeric value of a list of decimal digits. -/
def decVal (l : Str) : Nat :=
  l.foldl (fun a c => 10 * a + (c.toNat - 48)) 0

/-- Whether every character of `l` is a decimal digit. -/
def allDigits (l : Str) : Bool := l.all (fun c => c.isDigit)

/-- `QByteArray::toInt`: parse a decimal integer, `0` on malformed input. -/
def parseIntB (l : Str) : Int :=
  match l with
  | '-' :: rest => if rest ≠ [] ∧ allDigits rest then -(decVal rest : Int) else 0
  | _ => if l ≠ [] ∧ allDigits l then (decVal l : Int) else 0

/-- The place marker `%1`. -/
def pat1 : Str := ['%', '1']

/-- The place marker `%2`. -/
def pat2 : Str := ['%', '2']

/-- `m_sizePrefix`, the format string `"%1-%2-"`. -/
def sizePre : Str := ['%', '1', '-', '%', '2', '-']

/-- `m_frameCountPrefix`, the string `"fc-"`. -/
def fcPre : Str := ['f', 'c', '-']

/-- `m_boundsPrefix`, the string `"br-"`. -/
def brPre : Str := ['b', 'r', '-']

/-- The per-color-pair cache-key format string `"-%1-%2"` of `requestPixmap`. -/
def colorSuffix : Str := ['-', '%', '1', '-', '%', '2']

/-- `QString::arg` substituting `v : Int` for the marker `%1` (the lowest
marker of the format strings it is applied to here); if the marker is absent
the string is returned unchanged, as Qt does. -/
def qargInt1 (s : Str) (v : Int) : Str :=
  if 0 < occ pat1 s then replaceAll pat1 (intRepr v) s else s

/-- `QString::arg` substituting `v : Int` for the marker `%2`. -/
def qargInt2 (s : Str) (v : Int) : Str :=
  if 0 < occ pat2 s then replaceAll pat2 (intRepr v) s else s

/-- `QString::arg` substituting `v : Nat` (a `uint`, e.g. an rgba value) for `%1`. -/
def qargNat1 (s : Str) (v : Nat) : Str :=
  if 0 < occ pat1 s then replaceAll pat1 (decRepr v) s else s

/-- `QString::arg` substituting `v : Nat` for `%2`. -/
def qargNat2 (s : Str) (v : Nat) : Str :=
  if 0 < occ pat2 s then replaceAll pat2 (decRepr v) s else s

/-- Validity state of the renderer pool's SVG source (`KGRInternal::RendererPool`). -/
inductive Validity
  | Unchecked
  | Checked_Valid
  | Checked_Invalid
deriving DecidableEq

/-- Renderer-pool state: `m_valid`, and the numbers of idle (`m_hash` value `0`)
and checked-out renderer instances. -/
structure PoolState where
  valid : Validity
  idle : Nat
  used : Nat
deriving DecidableEq

/-- `RendererPool::hasAvailableRenderers`: some pooled instance is idle. -/
def hasAvail (p : PoolState) : Bool := decide (0 < p.idle)

/-- `RendererPool::allocRenderer`.  `none` models the null return (taken when
no idle instance exists and the source is known-bad); `some` returns the pool
state after checking out an instance.  `svgValid` is the validity of the bound
SVG source observed when a new `QSvgRenderer` is instantiated. -/
def allocRenderer (svgValid : Bool) (p : PoolState) : Option PoolState :=
  if 0 < p.idle then some { p with idle := p.idle - 1, used := p.used + 1 }
  else if p.valid = Validity.Checked_Invalid then none
  else some { p with valid := (if svgValid then Validity.Checked_Valid else Validity.Checked_Invalid),
                     used := p.used + 1 }

/-- `RendererPool::freeRenderer`: mark a checked-out instance idle again. -/
def freeRenderer (p : PoolState) : PoolState :=
  { p with idle := p.idle + 1, used := p.used - 1 }

/-- `QRectF`.  Coordinates are opaque to the engine (only produced by the SVG
probe, stored and compared), so they are modelled as integers. -/
structure Rect where
  x : Int
  y : Int
  w : Int
  h : Int
deriving DecidableEq

/-- The default-constructed `QRectF()`. -/
def Rect.empty : Rect := ⟨0, 0, 0, 0⟩

/-- `QImage` contents, opaque to the engine. -/
structure Image where
  id : Nat
deriving DecidableEq

/-- `QPixmap`: either the null pixmap `QPixmap()` or the conversion
`QPixmap::fromImage` of an image. -/
inductive Pixmap
  | empty
  | fromImage (img : Image)
deriving DecidableEq

/-- One entry of the shared disk cache (`KImageCache`): a byte array
(`insert`), a serialized `QRectF` (`QDataStream`), or an image (`insertImage`).
The serializations are injective, which the constructors model. -/
inductive CacheVal
  | bytes (b : Str)
  | rect (r : Rect)
  | image (i : Image)
deriving DecidableEq

/-- The strategy flag set (`KGameRenderer::Strategies`). -/
structure Strategies where
  useDiskCache : Bool
  useRenderingThreads : Bool
deriving DecidableEq

/-- A single strategy flag (`KGameRenderer::Strategy`). -/
inductive Strategy
  | UseDiskCache
  | UseRenderingThreads
deriving DecidableEq

/-- Whether `s` has the flag `strategy` set (`m_strategies & strategy`). -/
def getStrategy (s : Strategies) : Strategy → Bool
  | Strategy.UseDiskCache => s.useDiskCache
  | Strategy.UseRenderingThreads => s.useRenderingThreads

/-- `m_strategies |= strategy` resp. `m_strategies &= ~strategy`. -/
def setStrategyFlag (s : Strategies) (strategy : Strategy) (enabled : Bool) : Strategies :=
  match strategy with
  | Strategy.UseDiskCache => { s with useDiskCache := enabled }
  | Strategy.UseRenderingThreads => { s with useRenderingThreads := enabled }

/-- A registered `KGameRendererClient`, identified abstractly. -/
abbrev Client := Nat

/-- `KGRInternal::ClientSpec`: sprite key, frame, target size and color
substitutions (colors as their `rgba()` values). -/
structure ClientSpec where
  spriteKey : Str
  frame : Int
  w : Int
  h : Int
  customColors : List (Nat × Nat)
deriving DecidableEq

/-- `KGRInternal::Job` (the fields read after creation: cache key, element
key and the originating spec). -/
structure Job where
  cacheKey : Str
  elementKey : Str
  spec : ClientSpec
deriving DecidableEq

/-- The engine's environment: the capabilities of `QSvgRenderer` on the
bound SVG source (`elementExists`, `boundsOnElement`, `render`), the validity
observed when instantiating a new renderer, and a recursion bound for the
frame-scanning loop of `frameCount` (the C++ `while` loop terminates because
the SVG document has finitely many elements; any `probeFuel` beyond the
sprite's frame count gives the loop's exact behaviour). -/
structure Env where
  elementExists : Str → Bool
  boundsOf : Str → Rect
  render : Str → Int → Int → List (Nat × Nat) → Image
  svgValid : Bool
  probeFuel : Nat

/-- First value bound to key `k` (`QHash::value` / `KSharedDataCache::find`). -/
def findA {α β : Type} [DecidableEq α] : List (α × β) → α → Option β
  | [], _ => none
  | (a, b) :: t, k => if a = k then some b else findA t k

/-- Remove every binding of key `k`. -/
def eraseKey {α β : Type} [DecidableEq α] : List (α × β) → α → List (α × β)
  | [], _ => []
  | (a, b) :: t, k => if a = k then eraseKey t k else (a, b) :: eraseKey t k

/-- `QHash::insert` / cache `insert`: bind `k` to `v`, replacing any old binding. -/
def upsert {α β : Type} [DecidableEq α] (l : List (α × β)) (k : α) (v : β) : List (α × β) :=
  (k, v) :: eraseKey l k

/-- `QHash::keys(value)`: all keys currently bound to `v`. -/
def keysFor {α β : Type} [DecidableEq β] : List (α × β) → β → List α
  | [], _ => []
  | (a, b) :: t, v => if b = v then a :: keysFor t v else keysFor t v

/-- `QList::removeAll`. -/
def removeAll (l : List Str) (k : Str) : List Str :=
  match l with
  | [] => []
  | s :: t => if s = k then removeAll t k else s :: removeAll t k

/-- `KImageCache::findPixmap`: a hit only for entries stored as images. -/
def findPixmapD (dc : List (Str × CacheVal)) (k : Str) : Option Pixmap :=
  match findA dc k with
  | some (CacheVal.image i) => some (Pixmap.fromImage i)
  | _ => none

/-- The mutable state of `KGameRendererPrivate` used by the operations under
verification.  `m_sizePrefix`, `m_frameCountPrefix` and `m_boundsPrefix` are
immutable and kept as the constants `sizePre`, `fcPre`, `brPre`. -/
structure EngineState where
  currentTheme : Str
  defaultTheme : Str
  frameSuffix : Str
  frameBaseIndex : Int
  strategies : Strategies
  frameCountCache : List (Str × Int)
  boundsCache : List (Str × Rect)
  pixmapCache : List (Str × Pixmap)
  imageCache : List (Str × CacheVal)
  clients : List (Client × Str)
  pendingRequests : List Str
  pool : PoolState
deriving DecidableEq

/-- `KGameRendererPrivate::setTheme` (kgamerenderer.cpp:159-163), exactly as
it stands in this repository: a stub — `Q_UNUSED(theme); return true;` — it
performs no validation, never records a current theme, never clears caches
and never re-points the renderer pool. -/
def privSetTheme (st : EngineState) (_theme : Str) : Bool × EngineState :=
  (true, st)

/-- `KGameRenderer::setTheme` (kgamerenderer.cpp:132-157).  The per-client
`fetchPixmap` re-request issued after the theme change lives in
`kgamerendererclient.cpp` (not part of this repository) and simply re-enters
`requestPixmap` with the client's current spec; here the announcement is
modelled up to its direct effect on the registry — clearing every client's
recorded cache key — with the re-issued requests treated as subsequent
`requestPixmap` steps. -/
def setTheme (_env : Env) (st : EngineState) (theme : Str) : EngineState :=
  if st.currentTheme = theme then st
  else
    let r1 := privSetTheme st theme
    let st1 := if r1.1 = false ∧ theme ≠ st.defaultTheme
      then (privSetTheme r1.2 st.defaultTheme).2 else r1.2
    { st1 with clients := st1.clients.map (fun p => (p.1, ([] : Str))) }

/-- `KGameRenderer::setFrameSuffix` (kgamerenderer.cpp:97-100). -/
def setFrameSuffix (st : EngineState) (suffix : Str) : EngineState :=
  { st with frameSuffix := if 0 < occ pat1 suffix then suffix else lit "_%1" }

/-- `KGameRenderer::setStrategyEnabled` (kgamerenderer.cpp:107-125).  The
second component records whether the theme-reload branch ran. -/
def setStrategyEnabled (env : Env) (st : EngineState) (strategy : Strategy)
    (enabled : Bool) : EngineState × Bool :=
  let oldEnabled := getStrategy st.strategies strategy
  let st1 := { st with strategies := setStrategyFlag st.strategies strategy enabled }
  if strategy = Strategy.UseDiskCache ∧ oldEnabled ≠ enabled then
    (setTheme env { st1 with currentTheme := [] } st.currentTheme, true)
  else
    (st1, false)

/-- `KGameRendererPrivate::spriteFrameKey` with `normalizeFrameNo = false`
(kgamerenderer.cpp:165-187 without the normalization block): the fast path for
negative frames, else `key + m_frameSuffix.arg(frame)`. -/
def frameKeyNoNorm (suffix key : Str) (frame : Int) : Str :=
  if frame < 0 then key else key ++ qargInt1 suffix frame

/-- The frame-scanning `while` loop of `frameCount` (kgamerenderer.cpp:225-228):
starting at `count`, advance while the SVG has an element for the suffixed key. -/
def probeLoop (env : Env) (suffix key : Str) : Nat → Int → Int
  | 0, count => count
  | fuel + 1, count =>
    if env.elementExists (frameKeyNoNorm suffix key count)
    then probeLoop env suffix key fuel (count + 1)
    else count

/-- Result of `KGameRenderer::frameCount`: the returned count (`none` models
the null-renderer dereference that the C++ would perform if
`allocRenderer` returned null), the state after the call, and whether the
persistent (tier-2) store was consulted resp. the SVG source probed. -/
structure FCOut where
  ret : Option Int
  st : EngineState
  diskConsulted : Bool
  svgProbed : Bool
deriving DecidableEq

/-- `KGameRenderer::frameCount` (kgamerenderer.cpp:189-247). -/
def frameCount (env : Env) (st : EngineState) (key : Str) : FCOut :=
  let st0 := if st.currentTheme = [] then setTheme env st st.defaultTheme else st
  if st0.currentTheme = [] then ⟨some (-1), st0, false, false⟩
  else
    match findA st0.frameCountCache key with
    | some v => ⟨some v, st0, false, false⟩
    | none =>
      let ck := fcPre ++ key
      let diskTry := hasAvail st0.pool && st0.strategies.useDiskCache
      let found : Option Int :=
        if diskTry then
          match findA st0.imageCache ck with
          | some (CacheVal.bytes b) => some (parseIntB b)
          | some _ => some 0
          | none => none
        else none
      match found with
      | some c =>
        ⟨some c, { st0 with frameCountCache := upsert st0.frameCountCache key c }, diskTry, false⟩
      | none =>
        match allocRenderer env.svgValid st0.pool with
        | none => ⟨none, st0, diskTry, false⟩
        | some pool1 =>
          let cnt0 := probeLoop env st0.frameSuffix key env.probeFuel st0.frameBaseIndex
            - st0.frameBaseIndex
          let cnt := if cnt0 = 0 ∧ env.elementExists key = false then -1 else cnt0
          let st1 := { st0 with pool := freeRenderer pool1 }
          let st2 := if st1.strategies.useDiskCache
            then { st1 with imageCache := upsert st1.imageCache ck (CacheVal.bytes (intRepr cnt)) }
            else st1
          ⟨some cnt, { st2 with frameCountCache := upsert st2.frameCountCache key cnt }, diskTry, true⟩

/-- `KGameRendererPrivate::spriteFrameKey` (kgamerenderer.cpp:165-187).  The
normalization path consults `frameCount`, which can mutate the engine state,
so the state is threaded through; `none` propagates a null-renderer
dereference from within `frameCount`. -/
def spriteFrameKey (env : Env) (st : EngineState) (key : Str) (frame : Int)
    (normalizeFrameNo : Bool) : Option (Str × EngineState) :=
  if frame < 0 then some (key, st)
  else if normalizeFrameNo then
    let r := frameCount env st key
    match r.ret with
    | none => none
    | some fc =>
      if fc ≤ 0 then some (key, r.st)
      else some (key ++ qargInt1 r.st.frameSuffix
        ((frame - r.st.frameBaseIndex).tmod fc + r.st.frameBaseIndex), r.st)
  else some (key ++ qargInt1 st.frameSuffix frame, st)

/-- Result of `KGameRenderer::boundsOnSprite`: the returned rectangle (`none`
models a null-renderer dereference), the state after the call, whether the
persistent store was consulted, whether the SVG was queried, and whether the
bounds were written to the persistent tier. -/
structure BOut where
  ret : Option Rect
  st : EngineState
  diskConsulted : Bool
  svgQueried : Bool
  tier2Written : Bool
deriving DecidableEq

/-- `KGameRenderer::boundsOnSprite` (kgamerenderer.cpp:249-300). -/
def boundsOnSprite (env : Env) (st : EngineState) (key : Str) (frame : Int) : BOut :=
  match spriteFrameKey env st key frame true with
  | none => ⟨none, st, false, false, false⟩
  | some (elementKey, stE) =>
    let st0 := if stE.currentTheme = [] then setTheme env stE stE.defaultTheme else stE
    if st0.currentTheme = [] then ⟨some Rect.empty, st0, false, false, false⟩
    else
      match findA st0.boundsCache elementKey with
      | some r => ⟨some r, st0, false, false, false⟩
      | none =>
        let ck := brPre ++ elementKey
        let diskTry := !(hasAvail st0.pool) && st0.strategies.useDiskCache
        let found : Option Rect :=
          if diskTry then
            match findA st0.imageCache ck with
            | some (CacheVal.rect r) => some r
            | some _ => some Rect.empty
            | none => none
          else none
        match found with
        | some b =>
          ⟨some b, { st0 with boundsCache := upsert st0.boundsCache elementKey b },
            diskTry, false, false⟩
        | none =>
          match allocRenderer env.svgValid st0.pool with
          | none => ⟨none, st0, diskTry, false, false⟩
          | some pool1 =>
            let b := env.boundsOf elementKey
            let st1 := { st0 with pool := freeRenderer pool1 }
            let st2 := if st1.strategies.useDiskCache
              then { st1 with imageCache := upsert st1.imageCache ck (CacheVal.rect b) }
              else st1
            ⟨some b, { st2 with boundsCache := upsert st2.boundsCache elementKey b },
              diskTry, true, st1.strategies.useDiskCache⟩

/-- The color-substitution part of the cache key: one `"-%1-%2"` application
per pair, in hash-iteration order (kgamerenderer.cpp:338-343). -/
def colorsSer : List (Nat × Nat) → Str
  | [] => []
  | p :: t => qargNat2 (qargNat1 colorSuffix p.1) p.2 ++ colorsSer t

/-- The cache key built by `requestPixmap` (kgamerenderer.cpp:337-343):
`m_sizePrefix.arg(width).arg(height) + elementKey` followed by one
color suffix per substitution pair. -/
def cacheKeyOf (w h : Int) (elementKey : Str) (colors : List (Nat × Nat)) : Str :=
  colors.foldl (fun acc p => acc ++ qargNat2 (qargNat1 colorSuffix p.1) p.2)
    (qargInt2 (qargInt1 sizePre w) h ++ elementKey)

/-- Result of `KGameRendererPrivate::jobFinished`: the state after the call,
the notified clients (each receives `delivered` via `receivePixmap`), and the
pixmap delivered (`none` when the conversion was skipped). -/
structure JFOut where
  st : EngineState
  notified : List Client
  delivered : Option Pixmap
deriving DecidableEq

/-- `KGameRendererPrivate::jobFinished` (kgamerenderer.cpp:407-433), applied to
the finished job's cache key and rendered image. -/
def jobFinished (st : EngineState) (cacheKey : Str) (result : Image)
    (isSynchronous : Bool) : JFOut :=
  let requesters := keysFor st.clients cacheKey
  let imageCache2 := if st.strategies.useDiskCache
    then upsert st.imageCache cacheKey (CacheVal.image result)
    else st.imageCache
  if st.strategies.useDiskCache = true ∧ isSynchronous = false ∧ requesters = [] then
    ⟨{ st with pendingRequests := removeAll st.pendingRequests cacheKey,
               imageCache := imageCache2 }, [], none⟩
  else
    let pixmap := Pixmap.fromImage result
    ⟨{ st with pendingRequests := removeAll st.pendingRequests cacheKey,
               imageCache := imageCache2,
               pixmapCache := upsert st.pixmapCache cacheKey pixmap }, requesters, some pixmap⟩

/-- Result of `KGameRendererPrivate::requestPixmap`: the state after the call,
the pixmap handed to `requestPixmap__propagateResult` (`none` if it was not
called), whether a null renderer would have been dereferenced, the job handed
to the worker pool (`none` if no asynchronous job was enqueued), and the
clients notified by an inline (synchronous) `jobFinished`. -/
structure ReqOut where
  st : EngineState
  delivered : Option Pixmap
  crashed : Bool
  enqueued : Option Job
  inlineNotified : List Client
deriving DecidableEq

/-- `KGameRendererPrivate::requestPixmap` after the client bookkeeping
(kgamerenderer.cpp:353-405): theme ensure, the two cache tiers, pending-job
deduplication, and job creation (inline `Worker::run` + `jobFinished` on the
synchronous path, enqueue + pending-set insertion on the asynchronous one). -/
def requestPixmapGo (env : Env) (st : EngineState) (spec : ClientSpec)
    (client : Option Client) (elementKey cacheKey : Str) : ReqOut :=
  let st0 := if st.currentTheme = [] then setTheme env st st.defaultTheme else st
  if st0.currentTheme = [] then ⟨st0, none, false, none, []⟩
  else
    match findA st0.pixmapCache cacheKey with
    | some pix => ⟨st0, some pix, false, none, []⟩
    | none =>
      match (if st0.strategies.useDiskCache then findPixmapD st0.imageCache cacheKey else none) with
      | some pix =>
        ⟨{ st0 with pixmapCache := upsert st0.pixmapCache cacheKey pix }, some pix, false, none, []⟩
      | none =>
        if client.isSome = true ∧ cacheKey ∈ st0.pendingRequests then ⟨st0, none, false, none, []⟩
        else
          if client.isNone = true ∨ st0.strategies.useRenderingThreads = false then
            match allocRenderer env.svgValid st0.pool with
            | none => ⟨st0, none, true, none, []⟩
            | some pool1 =>
              let img := env.render elementKey spec.w spec.h spec.customColors
              let jf := jobFinished { st0 with pool := freeRenderer pool1 } cacheKey img true
              let result := (findA jf.st.pixmapCache cacheKey).getD Pixmap.empty
              ⟨jf.st, some result, false, none, jf.notified⟩
          else
            ⟨{ st0 with pendingRequests := st0.pendingRequests ++ [cacheKey] },
              none, false, some ⟨cacheKey, elementKey, spec⟩, []⟩

/-- `KGameRendererPrivate::requestPixmap` (kgamerenderer.cpp:327-405). -/
def requestPixmap (env : Env) (st : EngineState) (spec : ClientSpec)
    (client : Option Client) : ReqOut :=
  if spec.w ≤ 0 ∨ spec.h ≤ 0 then ⟨st, some Pixmap.empty, false, none, []⟩
  else
    match spriteFrameKey env st spec.spriteKey spec.frame true with
    | none => ⟨st, none, true, none, []⟩
    | some (elementKey, st1) =>
      let cacheKey := cacheKeyOf spec.w spec.h elementKey spec.customColors
      match client with
      | some c =>
        if findA st1.clients c = some cacheKey then ⟨st1, none, false, none, []⟩
        else requestPixmapGo env { st1 with clients := upsert st1.clients c cacheKey }
          spec client elementKey cacheKey
      | none => requestPixmapGo env st1 spec none elementKey cacheKey

/-- `KGameRenderer::spritePixmap` (kgamerenderer.cpp:307-312): the synchronous
request path; an untouched synchronous result is the null pixmap. -/
def spritePixmap (env : Env) (st : EngineState) (key : Str) (w h : Int)
    (frame : Int) (colors : List (Nat × Nat)) : Pixmap × EngineState :=
  let o := requestPixmap env st ⟨key, frame, w, h, colors⟩ none
  (o.delivered.getD Pixmap.empty, o.st)

/-- An environment whose SVG source is valid but has no elements. -/
def envAll : Env :=
  ⟨fun _ => false, fun _ => Rect.empty, fun _ _ _ _ => ⟨0⟩, true, 8⟩

/-- A base engine state: theme `"t"` active, default theme `"d"`, default
frame suffix, both strategies enabled, empty caches and registry, and a pool
holding one idle instance of known-valid source. -/
def baseSt : EngineState :=
  ⟨lit "t", lit "d", lit "_%1", 0, ⟨true, true⟩, [], [], [], [], [], [],
    ⟨Validity.Checked_Valid, 1, 0⟩⟩

/-- State with an idle renderer, disk cache enabled, and a persisted frame
count for sprite `"k"`. -/
def stC1 : EngineState :=
  { baseSt with imageCache := [(fcPre ++ lit "k", CacheVal.bytes (lit "3"))] }

/-- State with frame base index `2` and a cached frame count of `3` for
sprite `"k"`. -/
def stC5 : EngineState :=
  { baseSt with frameBaseIndex := 2, frameCountCache := [(lit "k", 3)] }

/-- State with an idle renderer and the disk-cache strategy disabled. -/
def stC7 : EngineState :=
  { baseSt with strategies := ⟨false, true⟩ }

/-- State with two registered clients holding older cache keys and the
disk-cache strategy disabled. -/
def stC34 : EngineState :=
  { baseSt with strategies := ⟨false, true⟩,
                clients := [(0, lit "a"), (1, lit "b")] }

/-- The state a freshly constructed `KGameRenderer` is in: no current theme
(`m_currentTheme` is never assigned by the stubbed theme loader), and the
renderer pool as built by the `RendererPool` constructor
(kgamerenderer.cpp:484): validity `Checked_Invalid`, no instances. -/
def stCons : EngineState :=
  { baseSt with currentTheme := [], pool := ⟨Validity.Checked_Invalid, 0, 0⟩ }

/-- The client spec used by the witnesses: non-animated sprite `"s"` at size
1×1 without color substitutions. -/
def specW : ClientSpec := ⟨lit "s", -1, 1, 1, []⟩

/-! ### Basic lemmas about the string model -/

theorem replaceAllAux_irrel (pat repl : Str) :
    ∀ (fuel fuel' : Nat) (l : Str), l.length ≤ fuel → l.length ≤ fuel' →
      replaceAllAux pat repl fuel l = replaceAllAux pat repl fuel' l := by
  intro fuel
  induction fuel with
  | zero =>
    intro fuel' l hl _
    have hnil : l = [] := by cases l with
      | nil => rfl
      | cons c t => simp at hl
    subst hnil
    cases fuel' <;> rfl
  | succ fuel ih =>
    intro fuel' l hl hl'
    cases l with
    | nil => cases fuel' <;> rfl
    | cons c rest =>
      cases fuel' with
      | zero => simp at hl'
      | succ fuel' =>
        simp only [List.length_cons, Nat.succ_le_succ_iff] at hl hl'
        simp only [replaceAllAux]
        by_cases h : leadsWith pat (c :: rest) = true
        · rw [if_pos h, if_pos h,
            ih fuel' _ (by simp only [List.length_drop]; omega)
              (by simp only [List.length_drop]; omega)]
        · rw [if_neg h, if_neg h, ih fuel' rest hl hl']

theorem replaceAll_nil (pat repl : Str) : replaceAll pat repl [] = [] := rfl

theorem replaceAll_cons (pat repl : Str) (c : Char) (rest : Str) :
    replaceAll pat repl (c :: rest) =
      if leadsWith pat (c :: rest) then
        repl ++ replaceAll pat repl (List.drop (pat.length - 1) rest)
      else c :: replaceAll pat repl rest := by
  show replaceAllAux pat repl (c :: rest).length (c :: rest) = _
  simp only [List.length_cons, replaceAllAux]
  by_cases h : leadsWith pat (c :: rest) = true
  · rw [if_pos h, if_pos h,
      replaceAllAux_irrel pat repl rest.length _ _
        (by simp only [List.length_drop]; omega) (le_refl _)]
    rfl
  · rw [if_neg h, if_neg h,
      replaceAllAux_irrel pat repl rest.length _ rest (le_refl _) (le_refl _)]
    rfl

theorem decReprAux_irrel :
    ∀ (fuel fuel' n : Nat), n < fuel → n < fuel' → decReprAux fuel n = decReprAux fuel' n := by
  intro fuel
  induction fuel with
  | zero => intro fuel' n h _; omega
  | succ fuel ih =>
    intro fuel' n h h'
    cases fuel' with
    | zero => omega
    | succ fuel' =>
      simp only [decReprAux]
      by_cases h10 : n < 10
      · rw [if_pos h10, if_pos h10]
      · rw [if_neg h10, if_neg h10]
        have hd : n / 10 < n := Nat.div_lt_self (by omega) (by omega)
        rw [ih fuel' (n / 10) (by omega) (by omega)]

theorem decRepr_eq (n : Nat) :
    decRepr n = if n < 10 then [Nat.digitChar n]
      else decRepr (n / 10) ++ [Nat.digitChar (n % 10)] := by
  show decReprAux (n + 1) n = _
  simp only [decReprAux]
  by_cases h10 : n < 10
  · rw [if_pos h10, if_pos h10]
  · rw [if_neg h10, if_neg h10]
    have hd : n / 10 < n := Nat.div_lt_self (by omega) (by omega)
    rw [decReprAux_irrel n (n / 10 + 1) (n / 10) (by omega) (by omega)]
    rfl

theorem decRepr_ne_nil (n : Nat) : decRepr n ≠ [] := by
  rw [decRepr_eq]
  split <;> simp

theorem digitChar_isDigit {m : Nat} (h : m < 10) : (Nat.digitChar m).isDigit = true := by
  interval_cases m <;> decide

theorem mem_decRepr_isDigit (n : Nat) : ∀ c ∈ decRepr n, c.isDigit = true := by
  induction n using Nat.strong_induction_on with
  | _ n ih =>
    rw [decRepr_eq]
    by_cases h10 : n < 10
    · rw [if_pos h10]
      intro c hc
      simp only [List.mem_singleton] at hc
      subst hc
      exact digitChar_isDigit h10
    · rw [if_neg h10]
      intro c hc
      rcases List.mem_append.mp hc with h | h
      · exact ih (n / 10) (Nat.div_lt_self (by omega) (by omega)) c h
      · simp only [List.mem_singleton] at h
        subst h
        exact digitChar_isDigit (Nat.mod_lt _ (by omega))

theorem isDigit_ne_percent {c : Char} (h : c.isDigit = true) : c ≠ '%' := by
  rintro rfl; exact absurd h (by decide)

theorem isDigit_ne_dash {c : Char} (h : c.isDigit = true) : c ≠ '-' := by
  rintro rfl; exact absurd h (by decide)

theorem digitChar_inj :
    ∀ a < 10, ∀ b < 10, Nat.digitChar a = Nat.digitChar b → a = b := by
  decide

theorem decRepr_inj : ∀ m n : Nat, decRepr m = decRepr n → m = n := by
  intro m
  induction m using Nat.strong_induction_on with
  | _ m ih =>
    intro n h
    rw [decRepr_eq m] at h
    rw [decRepr_eq n] at h
    by_cases hm : m < 10 <;> by_cases hn : n < 10
    · rw [if_pos hm, if_pos hn] at h
      simp only [List.cons.injEq, and_true] at h
      exact digitChar_inj m hm n hn h
    · rw [if_pos hm, if_neg hn] at h
      exfalso
      have hlen := congrArg List.length h
      simp only [List.length_append, List.length_cons, List.length_nil] at hlen
      exact decRepr_ne_nil (n / 10) (List.eq_nil_of_length_eq_zero (by omega))
    · rw [if_neg hm, if_pos hn] at h
      exfalso
      have hlen := congrArg List.length h
      simp only [List.length_append, List.length_cons, List.length_nil] at hlen
      exact decRepr_ne_nil (m / 10) (List.eq_nil_of_length_eq_zero (by omega))
    · rw [if_neg hm, if_neg hn] at h
      have hrev := congrArg List.reverse h
      simp only [List.reverse_append, List.reverse_cons, List.reverse_nil,
        List.nil_append, List.singleton_append, List.cons.injEq] at hrev
      have hdiv : m / 10 = n / 10 := by
        have hr : decRepr (m / 10) = decRepr (n / 10) :=
          List.reverse_injective (by simpa using hrev.2)
        exact ih (m / 10) (Nat.div_lt_self (by omega) (by omega)) _ hr
      have hmod : m % 10 = n % 10 :=
        digitChar_inj _ (Nat.mod_lt _ (by omega)) _ (Nat.mod_lt _ (by omega)) hrev.1
      omega

/-! ### Lemmas about the hash model -/

theorem findA_eraseKey_ne {α β : Type} [DecidableEq α] (l : List (α × β)) (k k' : α)
    (h : k' ≠ k) : findA (eraseKey l k) k' = findA l k' := by
  induction l with
  | nil => rfl
  | cons p t ih =>
    obtain ⟨a, b⟩ := p
    by_cases ha : a = k
    · simp only [eraseKey, if_pos ha, findA, ih]
      rw [if_neg (by rw [ha]; exact fun e => h e.symm)]
    · simp only [eraseKey, if_neg ha, findA]
      by_cases hak : a = k'
      · rw [if_pos hak, if_pos hak]
      · rw [if_neg hak, if_neg hak, ih]

theorem findA_upsert_self {α β : Type} [DecidableEq α] (l : List (α × β)) (k : α) (v : β) :
    findA (upsert l k v) k = some v := by
  simp [upsert, findA]

theorem findA_upsert_ne {α β : Type} [DecidableEq α] (l : List (α × β)) (k : α) (v : β)
    (k' : α) (h : k' ≠ k) : findA (upsert l k v) k' = findA l k' := by
  simp only [upsert, findA]
  rw [if_neg (fun e => h e.symm)]
  exact findA_eraseKey_ne l k k' h

theorem findA_mem {α β : Type} [DecidableEq α] {l : List (α × β)} {k : α} {v : β}
    (h : findA l k = some v) : (k, v) ∈ l := by
  induction l with
  | nil => simp [findA] at h
  | cons p t ih =>
    obtain ⟨a, b⟩ := p
    simp only [findA] at h
    by_cases ha : a = k
    · rw [if_pos ha] at h
      subst ha
      cases h
      exact List.mem_cons_self _ _
    · rw [if_neg ha] at h
      exact List.mem_cons_of_mem _ (ih h)

theorem findA_eq_some_of_mem {α β : Type} [DecidableEq α] {l : List (α × β)} {k : α} {v : β}
    (hnd : (l.map Prod.fst).Nodup) (h : (k, v) ∈ l) : findA l k = some v := by
  induction l with
  | nil => simp at h
  | cons p t ih =>
    obtain ⟨a, b⟩ := p
    simp only [List.map_cons, List.nodup_cons] at hnd
    rcases List.mem_cons.mp h with he | ht
    · cases he
      simp [findA]
    · have hak : a ≠ k := by
        rintro rfl
        exact hnd.1 (List.mem_map.mpr ⟨(a, v), ht, rfl⟩)
      simp only [findA, if_neg hak]
      exact ih hnd.2 ht

theorem mem_keysFor {α β : Type} [DecidableEq β] (l : List (α × β)) (v : β) (a : α) :
    a ∈ keysFor l v ↔ (a, v) ∈ l := by
  induction l with
  | nil => simp [keysFor]
  | cons p t ih =>
    obtain ⟨x, y⟩ := p
    simp only [keysFor]
    by_cases hy : y = v
    · rw [if_pos hy]
      simp only [List.mem_cons, ih, Prod.mk.injEq]
      constructor
      · rintro (rfl | h)
        · exact Or.inl ⟨rfl, hy.symm⟩
        · exact Or.inr h
      · rintro (⟨rfl, _⟩ | h)
        · exact Or.inl rfl
        · exact Or.inr h
    · rw [if_neg hy]
      simp only [ih, List.mem_cons, Prod.mk.injEq]
      constructor
      · exact Or.inr
      · rintro (⟨rfl, hv⟩ | h)
        · exact absurd hv.symm hy
        · exact h

theorem mem_map_fst_eraseKey {α β : Type} [DecidableEq α] {l : List (α × β)} {k x : α}
    (h : x ∈ (eraseKey l k).map Prod.fst) : x ∈ l.map Prod.fst := by
  induction l with
  | nil => simp [eraseKey] at h
  | cons p t ih =>
    obtain ⟨a, b⟩ := p
    by_cases ha : a = k
    · simp only [eraseKey, if_pos ha] at h
      exact List.mem_cons_of_mem _ (ih h)
    · simp only [eraseKey, if_neg ha, List.map_cons, List.mem_cons] at h ⊢
      rcases h with h | h
      · exact Or.inl h
      · exact Or.inr (ih h)

theorem not_mem_map_fst_eraseKey {α β : Type} [DecidableEq α] (l : List (α × β)) (k : α) :
    k ∉ (eraseKey l k).map Prod.fst := by
  induction l with
  | nil => simp [eraseKey]
  | cons p t ih =>
    obtain ⟨a, b⟩ := p
    by_cases ha : a = k
    · simpa [eraseKey, if_pos ha] using ih
    · simp only [eraseKey, if_neg ha, List.map_cons, List.mem_cons]
      rintro (h | h)
      · exact ha h.symm
      · exact ih h

theorem nodup_eraseKey {α β : Type} [DecidableEq α] {l : List (α × β)} (k : α)
    (hnd : (l.map Prod.fst).Nodup) : ((eraseKey l k).map Prod.fst).Nodup := by
  induction l with
  | nil => simp [eraseKey]
  | cons p t ih =>
    obtain ⟨a, b⟩ := p
    simp only [List.map_cons, List.nodup_cons] at hnd
    by_cases ha : a = k
    · simp only [eraseKey, if_pos ha]
      exact ih hnd.2
    · simp only [eraseKey, if_neg ha, List.map_cons, List.nodup_cons]
      exact ⟨fun hm => hnd.1 (mem_map_fst_eraseKey hm), ih hnd.2⟩

theorem nodup_upsert {α β : Type} [DecidableEq α] {l : List (α × β)} (k : α) (v : β)
    (hnd : (l.map Prod.fst).Nodup) : ((upsert l k v).map Prod.fst).Nodup := by
  simp only [upsert, List.map_cons, List.nodup_cons]
  exact ⟨not_mem_map_fst_eraseKey l k, nodup_eraseKey k hnd⟩

/-! ### Evaluation of the `QString::arg` substitutions on the format strings -/

theorem replaceAll_of_occ_zero (pat r : Str) (l : Str) (h : occ pat l = 0) :
    replaceAll pat r l = l := by
  induction l with
  | nil => rfl
  | cons c t ih =>
    rw [replaceAll_cons]
    simp only [occ] at h
    have hlw : ¬ leadsWith pat (c :: t) = true := by
      intro hb
      rw [if_pos hb] at h
      omega
    rw [if_neg hlw]
    have ht : occ pat t = 0 := by
      rw [if_neg hlw] at h
      omega
    rw [ih ht]

theorem replaceAll_append_of_head_percent (pat r l m : Str) (hp : pat.head? = some '%')
    (hl : ∀ c ∈ l, c ≠ '%') : replaceAll pat r (l ++ m) = l ++ replaceAll pat r m := by
  induction l with
  | nil => simp
  | cons c t ih =>
    have hc : c ≠ '%' := hl c (List.mem_cons_self _ _)
    rw [List.cons_append, replaceAll_cons]
    have hlw : ¬ leadsWith pat (c :: (t ++ m)) = true := by
      cases pat with
      | nil => simp at hp
      | cons p0 ps =>
        simp only [List.head?_cons, Option.some.injEq] at hp
        subst hp
        simp only [leadsWith, Bool.and_eq_true, decide_eq_true_eq]
        rintro ⟨he, -⟩
        exact hc he.symm
    rw [if_neg hlw, ih (fun c hc' => hl c (List.mem_cons_of_mem _ hc'))]
    rfl

theorem replaceAll_pat1_start (r rest : Str) :
    replaceAll pat1 r ('%' :: '1' :: rest) = r ++ replaceAll pat1 r rest := by
  rw [replaceAll_cons]
  have hl : leadsWith pat1 ('%' :: '1' :: rest) = true := by simp [pat1, leadsWith]
  rw [if_pos hl]
  simp [pat1]

theorem replaceAll_pat2_start (r rest : Str) :
    replaceAll pat2 r ('%' :: '2' :: rest) = r ++ replaceAll pat2 r rest := by
  rw [replaceAll_cons]
  have hl : leadsWith pat2 ('%' :: '2' :: rest) = true := by simp [pat2, leadsWith]
  rw [if_pos hl]
  simp [pat2]

theorem occ_append_le (pat l m : Str) : occ pat m ≤ occ pat (l ++ m) := by
  induction l with
  | nil => simp
  | cons c t ih =>
    rw [List.cons_append]
    simp only [occ]
    omega

theorem mem_intRepr_ne_percent (v : Int) : ∀ c ∈ intRepr v, c ≠ '%' := by
  intro c hc
  unfold intRepr at hc
  split at hc
  · rcases List.mem_cons.mp hc with rfl | h
    · decide
    · exact isDigit_ne_percent (mem_decRepr_isDigit _ c h)
  · exact isDigit_ne_percent (mem_decRepr_isDigit _ c hc)

theorem mem_intRepr_ne_dash_of_nonneg (v : Int) (hv : 0 ≤ v) : ∀ c ∈ intRepr v, c ≠ '-' := by
  intro c hc
  unfold intRepr at hc
  rw [if_neg (by omega)] at hc
  exact isDigit_ne_dash (mem_decRepr_isDigit _ c hc)

theorem mem_decRepr_ne_percent (n : Nat) : ∀ c ∈ decRepr n, c ≠ '%' :=
  fun c hc => isDigit_ne_percent (mem_decRepr_isDigit n c hc)

theorem qargInt1_sizePre (w : Int) : qargInt1 sizePre w = intRepr w ++ ['-', '%', '2', '-'] := by
  unfold qargInt1
  rw [if_pos (by decide)]
  show replaceAll pat1 (intRepr w) ('%' :: '1' :: ['-', '%', '2', '-']) = _
  rw [replaceAll_pat1_start, replaceAll_of_occ_zero _ _ _ (by decide)]

theorem qargInt2_sizePre (w h : Int) :
    qargInt2 (intRepr w ++ ['-', '%', '2', '-']) h = intRepr w ++ '-' :: intRepr h ++ ['-'] := by
  unfold qargInt2
  rw [if_pos (lt_of_lt_of_le (by decide) (occ_append_le pat2 (intRepr w) _))]
  rw [replaceAll_append_of_head_percent pat2 _ _ _ rfl (mem_intRepr_ne_percent w)]
  have h2 : replaceAll pat2 (intRepr h) ['-', '%', '2', '-'] = '-' :: intRepr h ++ ['-'] := by
    show replaceAll pat2 (intRepr h) ('-' :: '%' :: '2' :: ['-']) = _
    rw [replaceAll_cons, if_neg (by decide), replaceAll_pat2_start,
      replaceAll_of_occ_zero _ _ _ (by decide)]
    rfl
  rw [h2]
  simp [List.append_assoc]

theorem qargNat1_colorSuffix (a : Nat) :
    qargNat1 colorSuffix a = '-' :: decRepr a ++ ['-', '%', '2'] := by
  unfold qargNat1
  rw [if_pos (by decide)]
  show replaceAll pat1 (decRepr a) ('-' :: '%' :: '1' :: ['-', '%', '2']) = _
  rw [replaceAll_cons, if_neg (by decide), replaceAll_pat1_start,
    replaceAll_of_occ_zero _ _ _ (by decide)]
  rfl

theorem qargNat2_colorSuffix (a b : Nat) :
    qargNat2 (qargNat1 colorSuffix a) b = '-' :: decRepr a ++ '-' :: decRepr b := by
  rw [qargNat1_colorSuffix]
  unfold qargNat2
  have hocc : 0 < occ pat2 ('-' :: decRepr a ++ ['-', '%', '2']) := by
    have h1 : occ pat2 (decRepr a ++ ['-', '%', '2']) ≤
        occ pat2 ('-' :: (decRepr a ++ ['-', '%', '2'])) := by
      simp only [occ]
      omega
    calc 0 < occ pat2 ['-', '%', '2'] := by decide
    _ ≤ occ pat2 (decRepr a ++ ['-', '%', '2']) := occ_append_le _ _ _
    _ ≤ _ := h1
  rw [if_pos (by simpa using hocc)]
  show replaceAll pat2 (decRepr b) (('-' :: decRepr a) ++ ['-', '%', '2']) = _
  rw [replaceAll_append_of_head_percent pat2 _ _ _ rfl
    (by
      intro c hc
      rcases List.mem_cons.mp hc with rfl | h
      · decide
      · exact mem_decRepr_ne_percent a c h)]
  show ('-' :: decRepr a) ++ replaceAll pat2 (decRepr b) ('-' :: '%' :: '2' :: []) = _
  rw [replaceAll_cons, if_neg (by decide), replaceAll_pat2_start,
    replaceAll_of_occ_zero _ _ _ (by decide)]
  simp

theorem foldl_colorsSer (cs : List (Nat × Nat)) : ∀ init : Str,
    cs.foldl (fun acc p => acc ++ qargNat2 (qargNat1 colorSuffix p.1) p.2) init =
      init ++ colorsSer cs := by
  induction cs with
  | nil => intro init; simp [colorsSer]
  | cons p t ih =>
    intro init
    simp only [List.foldl_cons, colorsSer, ih, List.append_assoc]

theorem cacheKeyOf_eval (w h : Int) (ek : Str) (colors : List (Nat × Nat)) :
    cacheKeyOf w h ek colors =
      (intRepr w ++ '-' :: (intRepr h ++ '-' :: ek)) ++ colorsSer colors := by
  unfold cacheKeyOf
  rw [foldl_colorsSer, qargInt1_sizePre, qargInt2_sizePre]
  simp [List.append_assoc]

theorem dash_split (a r : Str) : ∀ (a' r' : Str), (∀ c ∈ a, c ≠ '-') → (∀ c ∈ a', c ≠ '-') →
    a ++ '-' :: r = a' ++ '-' :: r' → a = a' ∧ r = r' := by
  induction a with
  | nil =>
    intro a' r' _ ha' h
    cases a' with
    | nil => simpa using h
    | cons c t =>
      rw [List.nil_append, List.cons_append] at h
      obtain ⟨hc, -⟩ := List.cons.injEq .. ▸ h
      exact absurd hc.symm (ha' c (List.mem_cons_self _ _))
  | cons c t ih =>
    intro a' r' ha ha' h
    cases a' with
    | nil =>
      rw [List.nil_append, List.cons_append] at h
      obtain ⟨hc, -⟩ := List.cons.injEq .. ▸ h
      exact absurd hc (ha c (List.mem_cons_self _ _))
    | cons c' t' =>
      rw [List.cons_append, List.cons_append] at h
      obtain ⟨hc, hrest⟩ := List.cons.injEq .. ▸ h
      obtain ⟨h1, h2⟩ := ih t' r' (fun x hx => ha x (List.mem_cons_of_mem _ hx))
        (fun x hx => ha' x (List.mem_cons_of_mem _ hx)) hrest
      exact ⟨by rw [hc, h1], h2⟩

theorem intRepr_inj_of_nonneg {v v' : Int} (hv : 0 ≤ v) (hv' : 0 ≤ v')
    (h : intRepr v = intRepr v') : v = v' := by
  unfold intRepr at h
  rw [if_neg (by omega), if_neg (by omega)] at h
  have := decRepr_inj _ _ h
  omega

/-- C6 (counterexample): two distinct inputs to the cache-key construction —
the element key `"x-123-456"` with no color substitutions, and the element key
`"x"` with the color pair `(123, 456)` — produce the identical cache-key
string at size 1×1, refuting collision-freeness. -/
theorem cacheKeyOf_cex :
    cacheKeyOf 1 1 (lit "x-123-456") [] = cacheKeyOf 1 1 (lit "x") [(123, 456)] ∧
      ¬ ((lit "x-123-456", ([] : List (Nat × Nat))) = (lit "x", [(123, 456)])) := by
  decide

/-- C6 (amended): the cache key is deterministic in (element key, size,
serialized color-pair list), and for a fixed color-pair list it is
collision-free in (width, height, element key): equal cache keys force equal
sizes and element keys. -/
theorem cacheKeyOf_inj (w h w' h' : Int) (ek ek' : Str) (cs : List (Nat × Nat))
    (hw : 1 ≤ w) (hh : 1 ≤ h) (hw' : 1 ≤ w') (hh' : 1 ≤ h')
    (heq : cacheKeyOf w h ek cs = cacheKeyOf w' h' ek' cs) :
    w = w' ∧ h = h' ∧ ek = ek' := by
  rw [cacheKeyOf_eval, cacheKeyOf_eval] at heq
  have hleft := (List.append_inj' heq rfl).1
  obtain ⟨h1, h2⟩ := dash_split _ _ _ _
    (mem_intRepr_ne_dash_of_nonneg w (by omega))
    (mem_intRepr_ne_dash_of_nonneg w' (by omega)) hleft
  obtain ⟨h3, h4⟩ := dash_split _ _ _ _
    (mem_intRepr_ne_dash_of_nonneg h (by omega))
    (mem_intRepr_ne_dash_of_nonneg h' (by omega)) h2
  exact ⟨intRepr_inj_of_nonneg (by omega) (by omega) h1,
    intRepr_inj_of_nonneg (by omega) (by omega) h3, h4⟩

/-- C6 (witness): the amended collision-freeness instantiated at the concrete
input 1×1, element key `"x"`, no colors. -/
theorem cacheKeyOf_inj_witness :
    (1 : Int) = 1 ∧ (1 : Int) = 1 ∧ lit "x" = lit "x" :=
  cacheKeyOf_inj 1 1 1 1 (lit "x") (lit "x") [] (by decide) (by decide) (by decide)
    (by decide) rfl

/-- C8 (counterexample): `setFrameSuffix` accepts the suffix `"_%1_%1"`, which
contains two substitution placeholders, so the stored suffix does not always
contain exactly one placeholder. -/
theorem setFrameSuffix_cex :
    occ pat1 (setFrameSuffix baseSt (lit "_%1_%1")).frameSuffix = 2 := by
  decide

/-- C8 (amended): `setFrameSuffix` accepts a suffix iff it contains at least
one substitution placeholder, and otherwise resets the stored suffix to the
default `"_%1"`; hence after any call the stored suffix contains at least one
placeholder. -/
theorem setFrameSuffix_placeholder (st : EngineState) (suffix : Str) :
    (setFrameSuffix st suffix).frameSuffix
        = (if 0 < occ pat1 suffix then suffix else lit "_%1") ∧
      1 ≤ occ pat1 (setFrameSuffix st suffix).frameSuffix := by
  refine ⟨rfl, ?_⟩
  show 1 ≤ occ pat1 (if 0 < occ pat1 suffix then suffix else lit "_%1")
  by_cases hc : 0 < occ pat1 suffix
  · rw [if_pos hc]; omega
  · rw [if_neg hc]; decide

/-- C10: `setStrategyEnabled` with `UseRenderingThreads` only toggles that
flag — current theme, caches, client registry, pending set, pool and the
disk-cache flag are unchanged and no reload is triggered; the reload runs
exactly for `UseDiskCache` when the flag value actually changes. -/
theorem setStrategyEnabled_threads_frame (env : Env) (st : EngineState) (enabled : Bool) :
    ((setStrategyEnabled env st Strategy.UseRenderingThreads enabled).2 = false ∧
      (setStrategyEnabled env st Strategy.UseRenderingThreads enabled).1 =
        { st with strategies := ⟨st.strategies.useDiskCache, enabled⟩ }) ∧
    (∀ (strategy : Strategy) (b : Bool),
      (setStrategyEnabled env st strategy b).2 = true ↔
        (strategy = Strategy.UseDiskCache ∧ getStrategy st.strategies strategy ≠ b)) := by
  constructor
  · constructor
    · simp [setStrategyEnabled]
    · simp [setStrategyEnabled, setStrategyFlag]
  · intro strategy b
    cases strategy with
    | UseDiskCache =>
      by_cases hb : st.strategies.useDiskCache = b
      · simp [setStrategyEnabled, getStrategy, hb]
      · simp [setStrategyEnabled, getStrategy, hb]
    | UseRenderingThreads =>
      simp [setStrategyEnabled, getStrategy]

/-! ### Renderer-pool helper lemmas -/

theorem allocRenderer_of_idle (svgValid : Bool) (p : PoolState) (h : 0 < p.idle) :
    allocRenderer svgValid p = some { p with idle := p.idle - 1, used := p.used + 1 } := by
  unfold allocRenderer
  rw [if_pos h]

theorem allocRenderer_isSome_of_not_invalid (svgValid : Bool) (p : PoolState)
    (hv : p.valid ≠ Validity.Checked_Invalid) : (allocRenderer svgValid p).isSome = true := by
  unfold allocRenderer
  by_cases h1 : 0 < p.idle
  · rw [if_pos h1]
    rfl
  · rw [if_neg h1, if_neg hv]
    rfl

theorem hasAvail_idle {p : PoolState} (h : hasAvail p = true) : 0 < p.idle := by
  simpa [hasAvail] using h

/-! ### `frameCount` lemmas and claims C1, C5 -/

theorem frameCount_hit (env : Env) (st : EngineState) (key : Str) (v : Int)
    (ht : st.currentTheme ≠ []) (hm : findA st.frameCountCache key = some v) :
    frameCount env st key = ⟨some v, st, false, false⟩ := by
  simp [frameCount, ht, hm]

/-- C1 (counterexample): with an idle renderer available, the disk-cache
strategy enabled and a tier-1 miss, `frameCount` does consult the persistent
store (and does not probe the SVG source), contrary to the claim that the
persistent store is consulted only when no idle renderer exists. -/
theorem frameCount_gate_cex :
    (frameCount envAll stC1 (lit "k")).diskConsulted = true ∧
    (frameCount envAll stC1 (lit "k")).svgProbed = false ∧
    hasAvail stC1.pool = true ∧ stC1.strategies.useDiskCache = true ∧
    findA stC1.frameCountCache (lit "k") = none ∧ stC1.currentTheme ≠ [] ∧
    (frameCount envAll stC1 (lit "k")).ret = some 3 := by
  decide

/-- C1 (amended): on an in-process (tier-1) miss with a theme active,
`frameCount` consults the persistent (tier-2) store exactly when the
disk-cache strategy is enabled AND an idle renderer is available; whenever the
persistent store is not consulted, the miss goes straight to probing the SVG
source. -/
theorem frameCount_gate (env : Env) (st : EngineState) (key : Str)
    (ht : st.currentTheme ≠ []) (hm : findA st.frameCountCache key = none)
    (hv : st.pool.valid ≠ Validity.Checked_Invalid) :
    (frameCount env st key).diskConsulted = (hasAvail st.pool && st.strategies.useDiskCache) ∧
    ((hasAvail st.pool && st.strategies.useDiskCache) = false →
      (frameCount env st key).svgProbed = true) := by
  have hsome := allocRenderer_isSome_of_not_invalid env.svgValid st.pool hv
  obtain ⟨q, hq⟩ := Option.isSome_iff_exists.mp hsome
  simp only [frameCount]
  rw [if_neg ht, if_neg ht]
  simp only [hm]
  constructor
  · split
    · rfl
    · split
      · rfl
      · rfl
  · intro hfalse
    rw [hfalse]
    simp only [Bool.false_eq_true, if_false, hq]

/-- C5 (counterexample): with frame base index 2 and frame count 3 for sprite
`"k"`, requesting the below-base frame 0 yields the element key `"k_0"`,
which is none of the in-range element keys `"k_2"`, `"k_3"`, `"k_4"` — the
C++ truncated modulo does not bring below-base frames into
`[frameBaseIndex, frameBaseIndex + frameCount)`. -/
theorem spriteFrameKey_cex :
    spriteFrameKey envAll stC5 (lit "k") 0 true = some (lit "k_0", stC5) ∧
    stC5.frameBaseIndex = 2 ∧ findA stC5.frameCountCache (lit "k") = some 3 ∧
    lit "k" ++ qargInt1 stC5.frameSuffix 2 = lit "k_2" ∧
    lit "k" ++ qargInt1 stC5.frameSuffix 3 = lit "k_3" ∧
    lit "k" ++ qargInt1 stC5.frameSuffix 4 = lit "k_4" ∧
    lit "k_0" ≠ lit "k_2" ∧ lit "k_0" ≠ lit "k_3" ∧ lit "k_0" ≠ lit "k_4" := by
  decide

/-- C5 (amended): for an animated sprite with cached frame count `N > 0` and
frame base index `B ≥ 0`, `spriteFrameKey` normalizes every requested frame
`≥ B` into `[B, B + N)` by modulo arithmetic; in particular requesting frame
`B + N + k` (k ≥ 0) yields the identical element key as requesting frame
`B + (k mod N)`. -/
theorem spriteFrameKey_norm (env : Env) (st : EngineState) (key : Str) (N : Int)
    (ht : st.currentTheme ≠ []) (hN : findA st.frameCountCache key = some N)
    (hNpos : 0 < N) (hB : 0 ≤ st.frameBaseIndex) :
    (∀ frame : Int, st.frameBaseIndex ≤ frame →
      ∃ j : Int, st.frameBaseIndex ≤ j ∧ j < st.frameBaseIndex + N ∧
        spriteFrameKey env st key frame true =
          some (key ++ qargInt1 st.frameSuffix j, st)) ∧
    (∀ k : Nat, spriteFrameKey env st key (st.frameBaseIndex + N + k) true =
      spriteFrameKey env st key (st.frameBaseIndex + ((k : Int) % N)) true) := by
  have hfc := frameCount_hit env st key N ht hN
  have hkey : ∀ frame : Int, st.frameBaseIndex ≤ frame →
      spriteFrameKey env st key frame true =
        some (key ++ qargInt1 st.frameSuffix
          ((frame - st.frameBaseIndex) % N + st.frameBaseIndex), st) := by
    intro frame hf
    unfold spriteFrameKey
    rw [if_neg (show ¬ frame < 0 by omega), if_pos rfl, hfc]
    simp only
    rw [if_neg (show ¬ N ≤ 0 by omega)]
    rw [Int.tmod_eq_emod (by omega) (by omega)]
  constructor
  · intro frame hf
    refine ⟨(frame - st.frameBaseIndex) % N + st.frameBaseIndex, ?_, ?_, hkey frame hf⟩
    · have := Int.emod_nonneg (frame - st.frameBaseIndex) (show N ≠ 0 by omega)
      omega
    · have := Int.emod_lt_of_pos (frame - st.frameBaseIndex) hNpos
      omega
  · intro k
    have hk1 : 0 ≤ ((k : Int) % N) := Int.emod_nonneg (k : Int) (show N ≠ 0 by omega)
    rw [hkey _ (by omega), hkey _ (by omega)]
    have harg : (st.frameBaseIndex + N + (k : Int) - st.frameBaseIndex) % N =
        (st.frameBaseIndex + ((k : Int) % N) - st.frameBaseIndex) % N := by
      have h1 : st.frameBaseIndex + N + (k : Int) - st.frameBaseIndex = (k : Int) + N * 1 := by
        ring
      have h2 : st.frameBaseIndex + ((k : Int) % N) - st.frameBaseIndex = (k : Int) % N := by
        ring
      rw [h1, h2, Int.add_mul_emod_self_left, Int.emod_emod_of_dvd _ (dvd_refl N)]
    rw [harg]

/-- C5 (witness): the amended normalization instantiated at the concrete
state `stC5` (base index 2, frame count 3), requested frames 7 and 2+3+1. -/
theorem spriteFrameKey_norm_witness :
    (∃ j : Int, stC5.frameBaseIndex ≤ j ∧ j < stC5.frameBaseIndex + 3 ∧
      spriteFrameKey envAll stC5 (lit "k") 7 true =
        some (lit "k" ++ qargInt1 stC5.frameSuffix j, stC5)) ∧
    spriteFrameKey envAll stC5 (lit "k") (stC5.frameBaseIndex + 3 + ((1 : Nat) : Int)) true =
      spriteFrameKey envAll stC5 (lit "k") (stC5.frameBaseIndex + (((1 : Nat) : Int) % 3)) true :=
  ⟨(spriteFrameKey_norm envAll stC5 (lit "k") 3 (by decide) (by decide) (by decide)
      (by decide)).1 7 (by decide),
    (spriteFrameKey_norm envAll stC5 (lit "k") 3 (by decide) (by decide) (by decide)
      (by decide)).2 1⟩

/-! ### `boundsOnSprite` lemmas and claim C7 -/

/-- C7 (counterexample): with an idle renderer available but the disk-cache
strategy disabled, a tier-1 miss in `boundsOnSprite` queries the SVG source
and writes the bounds only to the in-process tier, not to both cache tiers. -/
theorem boundsOnSprite_cex :
    (boundsOnSprite envAll stC7 (lit "k") (-1)).svgQueried = true ∧
    (boundsOnSprite envAll stC7 (lit "k") (-1)).tier2Written = false ∧
    hasAvail stC7.pool = true ∧ findA stC7.boundsCache (lit "k") = none ∧
    (boundsOnSprite envAll stC7 (lit "k") (-1)).ret = some Rect.empty ∧
    findA (boundsOnSprite envAll stC7 (lit "k") (-1)).st.imageCache (brPre ++ lit "k") = none := by
  decide

/-- C7 (amended): on an in-process miss with a theme active, `boundsOnSprite`
consults the persistent store exactly when the disk-cache strategy is enabled
AND no idle renderer is available; when an idle renderer exists it queries the
SVG source directly, writes the obtained bounds to the in-process tier always,
and to the persistent tier exactly when the disk-cache strategy is enabled. -/
theorem boundsOnSprite_gate (env : Env) (st : EngineState) (key : Str) (frame : Int) (ek : Str)
    (ht : st.currentTheme ≠ [])
    (hsf : spriteFrameKey env st key frame true = some (ek, st))
    (hm : findA st.boundsCache ek = none) :
    (boundsOnSprite env st key frame).diskConsulted =
      (!(hasAvail st.pool) && st.strategies.useDiskCache) ∧
    (hasAvail st.pool = true →
      (boundsOnSprite env st key frame).svgQueried = true ∧
      (boundsOnSprite env st key frame).ret = some (env.boundsOf ek) ∧
      findA (boundsOnSprite env st key frame).st.boundsCache ek = some (env.boundsOf ek) ∧
      (boundsOnSprite env st key frame).tier2Written = st.strategies.useDiskCache ∧
      (st.strategies.useDiskCache = true →
        findA (boundsOnSprite env st key frame).st.imageCache (brPre ++ ek) =
          some (CacheVal.rect (env.boundsOf ek)))) := by
  simp only [boundsOnSprite, hsf]
  rw [if_neg ht, if_neg ht]
  simp only [hm]
  constructor
  · split
    · rfl
    · split
      · rfl
      · rfl
  · intro hA
    have hidle := hasAvail_idle hA
    have hdiskTry : (!(hasAvail st.pool) && st.strategies.useDiskCache) = false := by
      simp [hA]
    rw [hdiskTry]
    simp only [Bool.false_eq_true, if_false, allocRenderer_of_idle env.svgValid st.pool hidle]
    by_cases hd : st.strategies.useDiskCache = true
    · rw [if_pos hd]
      simp [findA_upsert_self, hd]
    · rw [if_neg hd]
      have hd' : st.strategies.useDiskCache = false := by
        cases hdc : st.strategies.useDiskCache
        · rfl
        · exact absurd hdc hd
      simp [findA_upsert_self, hd']

/-- C1 (witness): the amended gate instantiated at the base state (theme
active, empty tier-1 cache, seeded pool). -/
theorem frameCount_gate_witness :
    (frameCount envAll baseSt (lit "k")).diskConsulted =
      (hasAvail baseSt.pool && baseSt.strategies.useDiskCache) ∧
    ((hasAvail baseSt.pool && baseSt.strategies.useDiskCache) = false →
      (frameCount envAll baseSt (lit "k")).svgProbed = true) :=
  frameCount_gate envAll baseSt (lit "k") (by decide) (by decide) (by decide)

/-- C7 (witness): the amended gate instantiated at the state with an idle
renderer and the disk cache disabled, for the non-animated frame `-1`. -/
theorem boundsOnSprite_gate_witness :
    (boundsOnSprite envAll stC7 (lit "k") (-1)).diskConsulted =
      (!(hasAvail stC7.pool) && stC7.strategies.useDiskCache) ∧
    (hasAvail stC7.pool = true →
      (boundsOnSprite envAll stC7 (lit "k") (-1)).svgQueried = true ∧
      (boundsOnSprite envAll stC7 (lit "k") (-1)).ret = some (envAll.boundsOf (lit "k")) ∧
      findA (boundsOnSprite envAll stC7 (lit "k") (-1)).st.boundsCache (lit "k") =
        some (envAll.boundsOf (lit "k")) ∧
      (boundsOnSprite envAll stC7 (lit "k") (-1)).tier2Written = stC7.strategies.useDiskCache ∧
      (stC7.strategies.useDiskCache = true →
        findA (boundsOnSprite envAll stC7 (lit "k") (-1)).st.imageCache (brPre ++ lit "k") =
          some (CacheVal.rect (envAll.boundsOf (lit "k"))))) :=
  boundsOnSprite_gate envAll stC7 (lit "k") (-1) (lit "k") (by decide) (by decide) (by decide)

/-! ### Client bookkeeping lemmas and claims C3, C4 -/

theorem jobFinished_clients (st : EngineState) (k : Str) (img : Image) (b : Bool) :
    (jobFinished st k img b).st.clients = st.clients := by
  simp only [jobFinished]
  split
  · rfl
  · rfl

theorem jobFinished_notified (st : EngineState) (k : Str) (img : Image) (b : Bool)
    (hnd : (st.clients.map Prod.fst).Nodup) :
    ∀ c, c ∈ (jobFinished st k img b).notified → findA st.clients c = some k := by
  intro c hc
  simp only [jobFinished] at hc
  split at hc
  · simp at hc
  · exact findA_eq_some_of_mem hnd ((mem_keysFor _ _ _).mp hc)

theorem jobFinished_notified_of_findA (st : EngineState) (k : Str) (img : Image) (b : Bool)
    (c : Client) (hf : findA st.clients c = some k) :
    c ∈ (jobFinished st k img b).notified ∧
    (jobFinished st k img b).delivered = some (Pixmap.fromImage img) := by
  have hk : c ∈ keysFor st.clients k := (mem_keysFor _ _ _).mpr (findA_mem hf)
  simp only [jobFinished]
  split
  · rename_i hcond
    rw [hcond.2.2] at hk
    simp at hk
  · exact ⟨hk, rfl⟩

theorem requestPixmapGo_clients (env : Env) (st : EngineState) (spec : ClientSpec)
    (client : Option Client) (ek ck : Str) (ht : st.currentTheme ≠ []) :
    (requestPixmapGo env st spec client ek ck).st.clients = st.clients := by
  simp only [requestPixmapGo]
  rw [if_neg ht, if_neg ht]
  split
  · rfl
  · split
    · rfl
    · split
      · rfl
      · split
        · split
          · rfl
          · rw [jobFinished_clients]
        · rfl

theorem requestPixmap_clients_shape (env : Env) (st : EngineState) (spec : ClientSpec)
    (c : Client) (ek k : Str) (ht : st.currentTheme ≠ [])
    (hw : 0 < spec.w) (hh : 0 < spec.h)
    (hsf : spriteFrameKey env st spec.spriteKey spec.frame true = some (ek, st))
    (hck : cacheKeyOf spec.w spec.h ek spec.customColors = k) :
    findA (requestPixmap env st spec (some c)).st.clients c = some k ∧
    ((requestPixmap env st spec (some c)).st.clients = st.clients ∨
      (requestPixmap env st spec (some c)).st.clients = upsert st.clients c k) := by
  simp only [requestPixmap]
  rw [if_neg (show ¬ (spec.w ≤ 0 ∨ spec.h ≤ 0) by omega), hsf]
  simp only [hck]
  by_cases hdup : findA st.clients c = some k
  · rw [if_pos hdup]
    exact ⟨hdup, Or.inl rfl⟩
  · rw [if_neg hdup]
    have hgo := requestPixmapGo_clients env
      { st with clients := upsert st.clients c k } spec (some c) ek k ht
    rw [hgo]
    exact ⟨findA_upsert_self _ _ _, Or.inr rfl⟩

/-- C3: a client that issues a new request (changing its recorded cache key to
`k'`) before an earlier asynchronous job for its previous key `k` completes
never receives the stale result: `jobFinished` notifies only clients whose
currently recorded cache key equals the finished job's key, and the requesting
client's recorded key is `k' ≠ k` after the new request. -/
theorem requestPixmap_no_stale (env : Env) (st : EngineState) (spec : ClientSpec)
    (c : Client) (ek k k' : Str) (img : Image)
    (hnd : (st.clients.map Prod.fst).Nodup) (ht : st.currentTheme ≠ [])
    (hw : 0 < spec.w) (hh : 0 < spec.h)
    (hsf : spriteFrameKey env st spec.spriteKey spec.frame true = some (ek, st))
    (hck : cacheKeyOf spec.w spec.h ek spec.customColors = k')
    (hne : k ≠ k') :
    findA (requestPixmap env st spec (some c)).st.clients c = some k' ∧
    (∀ c', c' ∈ (jobFinished (requestPixmap env st spec (some c)).st k img false).notified →
      findA (requestPixmap env st spec (some c)).st.clients c' = some k) ∧
    c ∉ (jobFinished (requestPixmap env st spec (some c)).st k img false).notified := by
  obtain ⟨hrec, hshape⟩ := requestPixmap_clients_shape env st spec c ek k' ht hw hh hsf hck
  have hnd' : ((requestPixmap env st spec (some c)).st.clients.map Prod.fst).Nodup := by
    rcases hshape with h | h
    · rw [h]; exact hnd
    · rw [h]; exact nodup_upsert c k' hnd
  have hsub := jobFinished_notified (requestPixmap env st spec (some c)).st k img false hnd'
  refine ⟨hrec, hsub, fun hmem => ?_⟩
  have := hsub c hmem
  rw [hrec] at this
  cases this
  exact hne rfl

theorem requestPixmap_enqueue (env : Env) (st : EngineState) (spec1 : ClientSpec)
    (c1 : Client) (ek1 k : Str)
    (ht : st.currentTheme ≠ [])
    (hw : 0 < spec1.w) (hh : 0 < spec1.h)
    (hsf1 : spriteFrameKey env st spec1.spriteKey spec1.frame true = some (ek1, st))
    (hk1 : cacheKeyOf spec1.w spec1.h ek1 spec1.customColors = k)
    (hold : ¬ findA st.clients c1 = some k)
    (ht1 : findA st.pixmapCache k = none)
    (ht2 : st.strategies.useDiskCache = true → findPixmapD st.imageCache k = none)
    (hpend : k ∉ st.pendingRequests)
    (hthr : st.strategies.useRenderingThreads = true) :
    requestPixmap env st spec1 (some c1) =
      ⟨{ st with clients := upsert st.clients c1 k,
                 pendingRequests := st.pendingRequests ++ [k] },
        none, false, some ⟨k, ek1, spec1⟩, []⟩ := by
  simp only [requestPixmap]
  rw [if_neg (show ¬ (spec1.w ≤ 0 ∨ spec1.h ≤ 0) by omega), hsf1]
  simp only [hk1]
  rw [if_neg hold]
  simp only [requestPixmapGo]
  rw [if_neg ht, if_neg ht]
  dsimp only
  rw [ht1]
  have htier2 : (if st.strategies.useDiskCache = true
      then findPixmapD st.imageCache k else none) = none := by
    by_cases hd : st.strategies.useDiskCache = true
    · rw [if_pos hd]
      exact ht2 hd
    · rw [if_neg hd]
  rw [htier2]
  rw [if_neg (show ¬ ((some c1).isSome = true ∧ k ∈ st.pendingRequests)
    from fun h => hpend h.2)]
  rw [if_neg (show ¬ ((some c1).isNone = true ∨ st.strategies.useRenderingThreads = false) by
    rintro (h | h)
    · simp at h
    · rw [hthr] at h
      cases h)]

theorem requestPixmap_pending_dedup (env : Env) (st : EngineState) (spec2 : ClientSpec)
    (c2 : Client) (ek2 k : Str)
    (ht : st.currentTheme ≠ [])
    (hw : 0 < spec2.w) (hh : 0 < spec2.h)
    (hsf2 : spriteFrameKey env st spec2.spriteKey spec2.frame true = some (ek2, st))
    (hk2 : cacheKeyOf spec2.w spec2.h ek2 spec2.customColors = k)
    (ht1 : findA st.pixmapCache k = none)
    (ht2 : st.strategies.useDiskCache = true → findPixmapD st.imageCache k = none)
    (hpend : k ∈ st.pendingRequests) :
    (requestPixmap env st spec2 (some c2)).enqueued = none ∧
    findA (requestPixmap env st spec2 (some c2)).st.clients c2 = some k ∧
    (∀ c', findA st.clients c' = some k → c' ≠ c2 →
      findA (requestPixmap env st spec2 (some c2)).st.clients c' = some k) := by
  simp only [requestPixmap]
  rw [if_neg (show ¬ (spec2.w ≤ 0 ∨ spec2.h ≤ 0) by omega), hsf2]
  simp only [hk2]
  by_cases hdup : findA st.clients c2 = some k
  · rw [if_pos hdup]
    exact ⟨rfl, hdup, fun c' hc' _ => hc'⟩
  · rw [if_neg hdup]
    simp only [requestPixmapGo]
    rw [if_neg ht, if_neg ht]
    dsimp only
    rw [ht1]
    have htier2 : (if st.strategies.useDiskCache = true
        then findPixmapD st.imageCache k else none) = none := by
      by_cases hd : st.strategies.useDiskCache = true
      · rw [if_pos hd]
        exact ht2 hd
      · rw [if_neg hd]
    rw [htier2]
    rw [if_pos (show (some c2).isSome = true ∧ k ∈ st.pendingRequests from ⟨rfl, hpend⟩)]
    refine ⟨rfl, findA_upsert_self _ _ _, fun c' hc' hne => ?_⟩
    rw [findA_upsert_ne _ _ _ _ hne]
    exact hc'

/-- C4: an asynchronous request that creates a job for cache key `k` puts `k`
into the pending set; a second asynchronous request computing the same key
returns without enqueuing a second job, and when the single job completes,
every registered client whose recorded key equals `k` — both requesters —
receives the resulting pixmap. -/
theorem request_dedup_fanout (env : Env) (st : EngineState) (spec1 spec2 : ClientSpec)
    (c1 c2 : Client) (ek1 ek2 k : Str) (img : Image)
    (ht : st.currentTheme ≠ [])
    (hw1 : 0 < spec1.w) (hh1 : 0 < spec1.h) (hw2 : 0 < spec2.w) (hh2 : 0 < spec2.h)
    (hsf1 : spriteFrameKey env st spec1.spriteKey spec1.frame true = some (ek1, st))
    (hk1 : cacheKeyOf spec1.w spec1.h ek1 spec1.customColors = k)
    (hold : ¬ findA st.clients c1 = some k)
    (ht1 : findA st.pixmapCache k = none)
    (ht2 : st.strategies.useDiskCache = true → findPixmapD st.imageCache k = none)
    (hpend : k ∉ st.pendingRequests)
    (hthr : st.strategies.useRenderingThreads = true)
    (hsf2 : spriteFrameKey env (requestPixmap env st spec1 (some c1)).st spec2.spriteKey
      spec2.frame true = some (ek2, (requestPixmap env st spec1 (some c1)).st))
    (hk2 : cacheKeyOf spec2.w spec2.h ek2 spec2.customColors = k) :
    (requestPixmap env st spec1 (some c1)).enqueued = some ⟨k, ek1, spec1⟩ ∧
    (requestPixmap env (requestPixmap env st spec1 (some c1)).st spec2 (some c2)).enqueued
      = none ∧
    (c1 ∈ (jobFinished (requestPixmap env (requestPixmap env st spec1 (some c1)).st spec2
        (some c2)).st k img false).notified ∧
      c2 ∈ (jobFinished (requestPixmap env (requestPixmap env st spec1 (some c1)).st spec2
        (some c2)).st k img false).notified ∧
      (jobFinished (requestPixmap env (requestPixmap env st spec1 (some c1)).st spec2
        (some c2)).st k img false).delivered = some (Pixmap.fromImage img)) := by
  have ho1 := requestPixmap_enqueue env st spec1 c1 ek1 k ht hw1 hh1 hsf1 hk1 hold ht1 ht2
    hpend hthr
  rw [ho1] at hsf2 ⊢
  obtain ⟨henq2, hc2, hpres⟩ := requestPixmap_pending_dedup env
    { st with clients := upsert st.clients c1 k,
              pendingRequests := st.pendingRequests ++ [k] }
    spec2 c2 ek2 k ht hw2 hh2 hsf2 hk2 ht1 ht2
    (by simp)
  have hc1 : findA (requestPixmap env
      { st with clients := upsert st.clients c1 k,
                pendingRequests := st.pendingRequests ++ [k] }
      spec2 (some c2)).st.clients c1 = some k := by
    by_cases hcc : c1 = c2
    · subst hcc
      exact hc2
    · exact hpres c1 (findA_upsert_self _ _ _) hcc
  obtain ⟨hm1, hdel⟩ := jobFinished_notified_of_findA _ k img false c1 hc1
  obtain ⟨hm2, -⟩ := jobFinished_notified_of_findA _ k img false c2 hc2
  exact ⟨rfl, henq2, hm1, hm2, hdel⟩

/-- C3 (witness): concrete instantiation — client 0 re-requests sprite `"s"`
(key `"1-1-s"`) while a job for the old key `"zz"` is outstanding. -/
theorem requestPixmap_no_stale_witness :
    findA (requestPixmap envAll stC34 specW (some 0)).st.clients 0 =
      some (cacheKeyOf 1 1 (lit "s") []) ∧
    (∀ c', c' ∈ (jobFinished (requestPixmap envAll stC34 specW (some 0)).st
        (lit "zz") ⟨5⟩ false).notified →
      findA (requestPixmap envAll stC34 specW (some 0)).st.clients c' = some (lit "zz")) ∧
    0 ∉ (jobFinished (requestPixmap envAll stC34 specW (some 0)).st (lit "zz") ⟨5⟩
      false).notified :=
  requestPixmap_no_stale envAll stC34 specW 0 (lit "s") (lit "zz")
    (cacheKeyOf 1 1 (lit "s") []) ⟨5⟩ (by decide) (by decide) (by decide) (by decide)
    (by decide) (by decide) (by decide)

/-- C4 (witness): concrete instantiation — clients 0 and 1 both request sprite
`"s"` at 1×1; one job is enqueued, the second request deduplicates, and both
clients are notified on completion. -/
theorem request_dedup_fanout_witness :
    (requestPixmap envAll stC34 specW (some 0)).enqueued =
      some ⟨cacheKeyOf 1 1 (lit "s") [], lit "s", specW⟩ ∧
    (requestPixmap envAll (requestPixmap envAll stC34 specW (some 0)).st specW
      (some 1)).enqueued = none ∧
    (0 ∈ (jobFinished (requestPixmap envAll (requestPixmap envAll stC34 specW (some 0)).st
        specW (some 1)).st (cacheKeyOf 1 1 (lit "s") []) ⟨5⟩ false).notified ∧
      1 ∈ (jobFinished (requestPixmap envAll (requestPixmap envAll stC34 specW (some 0)).st
        specW (some 1)).st (cacheKeyOf 1 1 (lit "s") []) ⟨5⟩ false).notified ∧
      (jobFinished (requestPixmap envAll (requestPixmap envAll stC34 specW (some 0)).st
        specW (some 1)).st (cacheKeyOf 1 1 (lit "s") []) ⟨5⟩ false).delivered =
        some (Pixmap.fromImage ⟨5⟩)) :=
  request_dedup_fanout envAll stC34 specW specW 0 1 (lit "s") (lit "s")
    (cacheKeyOf 1 1 (lit "s") []) ⟨5⟩ (by decide) (by decide) (by decide) (by decide)
    (by decide) (by decide) (by decide) (by decide) (by decide) (by decide) (by decide)
    (by decide) (by decide) (by decide)

/-! ### The stubbed theme loader and its consequences: claims C2 and C9 -/

theorem setTheme_stub_eq (env : Env) (st : EngineState) (theme : Str) :
    setTheme env st theme =
      if st.currentTheme = theme then st
      else { st with clients := st.clients.map (fun p => (p.1, ([] : Str))) } := by
  simp [setTheme, privSetTheme]

theorem setTheme_currentTheme (env : Env) (st : EngineState) (theme : Str) :
    (setTheme env st theme).currentTheme = st.currentTheme := by
  rw [setTheme_stub_eq]
  split <;> rfl

theorem setTheme_pool (env : Env) (st : EngineState) (theme : Str) :
    (setTheme env st theme).pool = st.pool := by
  rw [setTheme_stub_eq]
  split <;> rfl

theorem frameCount_themeless (env : Env) (st : EngineState) (key : Str)
    (h : st.currentTheme = []) :
    frameCount env st key = ⟨some (-1), setTheme env st st.defaultTheme, false, false⟩ := by
  have hct : (setTheme env st st.defaultTheme).currentTheme = [] := by
    rw [setTheme_currentTheme, h]
  simp only [frameCount]
  rw [if_pos h, if_pos hct]

theorem spriteFrameKey_themeless (env : Env) (st : EngineState) (key : Str) (frame : Int)
    (h : st.currentTheme = []) :
    spriteFrameKey env st key frame true =
      some (key, if frame < 0 then st else setTheme env st st.defaultTheme) := by
  simp only [spriteFrameKey]
  by_cases hf : frame < 0
  · rw [if_pos hf, if_pos hf]
  · rw [if_neg hf, if_neg hf, if_pos True.intro, frameCount_themeless env st key h]
    dsimp only
    rw [if_pos (show (-1 : Int) ≤ 0 by omega)]

theorem boundsOnSprite_themeless (env : Env) (st : EngineState) (key : Str) (frame : Int)
    (h : st.currentTheme = []) :
    ∃ st2 : EngineState, boundsOnSprite env st key frame =
      ⟨some Rect.empty, st2, false, false, false⟩ := by
  have hsfk := spriteFrameKey_themeless env st key frame h
  have hE : (if frame < 0 then st else setTheme env st st.defaultTheme).currentTheme = [] := by
    split
    · exact h
    · rw [setTheme_currentTheme, h]
  set stE := if frame < 0 then st else setTheme env st st.defaultTheme with hstE
  have hct : (setTheme env stE stE.defaultTheme).currentTheme = [] := by
    rw [setTheme_currentTheme, hE]
  refine ⟨setTheme env stE stE.defaultTheme, ?_⟩
  simp only [boundsOnSprite]
  rw [hsfk]
  dsimp only
  rw [if_pos hE, if_pos hct]

theorem requestPixmapGo_themeless (env : Env) (st : EngineState) (spec : ClientSpec)
    (client : Option Client) (ek ck : Str) (h : st.currentTheme = []) :
    requestPixmapGo env st spec client ek ck =
      ⟨setTheme env st st.defaultTheme, none, false, none, []⟩ := by
  have hct : (setTheme env st st.defaultTheme).currentTheme = [] := by
    rw [setTheme_currentTheme, h]
  simp only [requestPixmapGo]
  rw [if_pos h, if_pos hct]

theorem requestPixmap_themeless (env : Env) (st : EngineState) (spec : ClientSpec)
    (client : Option Client) (h : st.currentTheme = []) :
    (requestPixmap env st spec client).crashed = false ∧
    (requestPixmap env st spec client).enqueued = none ∧
    (requestPixmap env st spec client).delivered.getD Pixmap.empty = Pixmap.empty := by
  by_cases hwh : spec.w ≤ 0 ∨ spec.h ≤ 0
  · simp only [requestPixmap]
    rw [if_pos hwh]
    exact ⟨rfl, rfl, rfl⟩
  · have hsfk := spriteFrameKey_themeless env st spec.spriteKey spec.frame h
    have hE : (if spec.frame < 0 then st else setTheme env st st.defaultTheme).currentTheme
        = [] := by
      split
      · exact h
      · rw [setTheme_currentTheme, h]
    set stE := if spec.frame < 0 then st else setTheme env st st.defaultTheme with hstE
    simp only [requestPixmap]
    rw [if_neg hwh, hsfk]
    cases client with
    | none =>
      dsimp only
      rw [requestPixmapGo_themeless env stE spec none _ _ hE]
      exact ⟨rfl, rfl, rfl⟩
    | some c =>
      dsimp only
      by_cases hdup : findA stE.clients c
          = some (cacheKeyOf spec.w spec.h spec.spriteKey spec.customColors)
      · rw [if_pos hdup]
        exact ⟨rfl, rfl, rfl⟩
      · rw [if_neg hdup, requestPixmapGo_themeless]
        · exact ⟨rfl, rfl, rfl⟩
        · exact hE

/-- C2: **code bug**.  The claim follows the spec: a theme that fails
validation triggers a fallback to the default theme, and only when the default
also fails does every sprite query return its not-found sentinel.  In the code
as it stands, `KGameRendererPrivate::setTheme` (kgamerenderer.cpp:159-163) is
a stub that ignores its argument and returns `true` unconditionally, so
validation never fails, the fallback branch (lines 140-144) is dead code, and
— since the stub also never assigns `m_currentTheme` — no theme ever becomes
active: `setTheme` leaves the current theme unchanged, and in the only state
the program can reach (current theme still null) `frameCount` returns `-1`,
`boundsOnSprite` returns the empty rectangle and `spritePixmap` the null
pixmap for every sprite, unconditionally rather than only after a double
validation failure. -/
theorem setTheme_stub_dead (env : Env) (st : EngineState) (theme key : Str)
    (w h frame : Int) (colors : List (Nat × Nat)) :
    (privSetTheme st theme).1 = true ∧
    (setTheme env st theme).currentTheme = st.currentTheme ∧
    (frameCount env { st with currentTheme := [] } key).ret = some (-1) ∧
    (boundsOnSprite env { st with currentTheme := [] } key frame).ret = some Rect.empty ∧
    (spritePixmap env { st with currentTheme := [] } key w h frame colors).1
      = Pixmap.empty := by
  refine ⟨rfl, setTheme_currentTheme env st theme, ?_, ?_, ?_⟩
  · rw [frameCount_themeless env { st with currentTheme := [] } key rfl]
  · obtain ⟨st2, hb⟩ :=
      boundsOnSprite_themeless env { st with currentTheme := [] } key frame rfl
    rw [hb]
  · obtain ⟨-, -, hd⟩ := requestPixmap_themeless env { st with currentTheme := [] }
      ⟨key, frame, w, h, colors⟩ none rfl
    simp only [spritePixmap]
    exact hd

/-- C9 (amended): no null renderer is ever dereferenced at the
`allocRenderer` call sites — but not because the claimed preconditions hold
there.  The stubbed private `setTheme` never activates a theme, so the current
theme stays null in every reachable state; `frameCount` and `boundsOnSprite`
then return their sentinels before reaching their SVG probe (`svgProbed` and
`svgQueried` stay `false`), and `requestPixmap` neither renders inline nor
enqueues a job for `Worker::run`.  The call sites are simply unreachable;
had one been reached, the pool — still at its constructor state
`Checked_Invalid` with no idle instance (kgamerenderer.cpp:484) — would have
made `allocRenderer` return null (see `allocRenderer_null_cex`). -/
theorem allocRenderer_unreached (env : Env) (st : EngineState) (key : Str)
    (frame : Int) (spec : ClientSpec) (client : Option Client) :
    (frameCount env { st with currentTheme := [] } key).svgProbed = false ∧
    (boundsOnSprite env { st with currentTheme := [] } key frame).svgQueried = false ∧
    (requestPixmap env { st with currentTheme := [] } spec client).crashed = false ∧
    (requestPixmap env { st with currentTheme := [] } spec client).enqueued = none := by
  obtain ⟨hc, he, -⟩ :=
    requestPixmap_themeless env { st with currentTheme := [] } spec client rfl
  refine ⟨?_, ?_, hc, he⟩
  · rw [frameCount_themeless env { st with currentTheme := [] } key rfl]
  · obtain ⟨st2, hb⟩ :=
      boundsOnSprite_themeless env { st with currentTheme := [] } key frame rfl
    rw [hb]

theorem allocRenderer_null_cex :
    stCons.currentTheme = [] ∧
    stCons.pool = ⟨Validity.Checked_Invalid, 0, 0⟩ ∧
    allocRenderer envAll.svgValid stCons.pool = none ∧
    (privSetTheme stCons (lit "x")).1 = true ∧
    (privSetTheme stCons (lit "x")).2 = stCons ∧
    (setTheme envAll stCons (lit "x")).currentTheme = [] ∧
    (setTheme envAll stCons (lit "x")).pool = stCons.pool := by
  decide

end KGR
